import Mathlib

/-!
Verification development for the ln-stream repository: a Go service that
mirrors a Lightning Network channel graph into a Memgraph store, either by
bulk import (live pull or snapshot file) or by a live topology-update
subscription under a start/stop lifecycle.

The definitions below are a shallow embedding of the Go source:
  * the channel-ID codec (`convertChannelIDToString` in lnd package),
  * the bulk importer (`writeNodesToMemgraph`, `writeChannelsToMemgraph`,
    `writeSnapshotNodesToMemgraph`, `writeSnapshotChannelsToMemgraph`,
    `writeChannelPolicyToMemgraphSnapshot`),
  * the live update applier (`ProcessNodeUpdate`, `ProcessEdgeUpdate`,
    `ProcessCloseUpdate`, `ProcessUpdates` in memgraph package),
  * the HTTP-handler lifecycle state machine (`ResetGraphHandler`,
    `LoadLocalSnapshot`, `ToggleUpdatesHandler`, `GetStatusHandler`,
    `subscribeToGraphUpdates` in routes package).

Go machine integers (uint64 channel ids) are modelled as `Nat`; the bit
decompositions in the source use shifts and masks that never overflow, so
no explicit wraparound is needed.  Go strings are modelled as `String` or,
where character-level reasoning is required, `List Char`.
-/

/-! ## Decimal rendering of natural numbers

Go renders the three components of a channel id with `fmt.Sprintf("%d", _)`.
We model decimal rendering with an explicit fuel-driven accumulator so that
every definition reduces in the kernel. -/

/-- The decimal digit character for `d < 10` (Go `%d` digit). -/
def decDigitChar (d : Nat) : Char := Char.ofNat (48 + d)

/-- Fuel-driven decimal rendering accumulator: emits the digits of `n`
(most significant first) in front of `acc`.  Faithful to `%d`. -/
def natToDecAux : Nat → Nat → List Char → List Char
  | 0, _, acc => acc
  | fuel + 1, n, acc =>
    if n < 10 then decDigitChar n :: acc
    else natToDecAux fuel (n / 10) (decDigitChar (n % 10) :: acc)

/-- Decimal digit list of `n`, as produced by Go's `%d`. -/
def natToDec (n : Nat) : List Char := natToDecAux (n + 1) n []

/-- Parse a decimal digit list back to a number (standard positional fold). -/
def decVal (l : List Char) : Nat := l.foldl (fun a ch => 10 * a + (ch.toNat - 48)) 0

theorem natToDecAux_eq (n : Nat) :
    ∀ fuel acc, n < fuel → natToDecAux fuel n acc = natToDec n ++ acc := by
  induction n using Nat.strong_induction_on with
  | _ n ih =>
    intro fuel acc hfuel
    match fuel, hfuel with
    | f + 1, hfuel =>
      by_cases h10 : n < 10
      · simp [natToDecAux, natToDec, h10]
      · have hdiv : n / 10 < n := Nat.div_lt_self (by omega) (by omega)
        have hstep : natToDecAux (f + 1) n acc
            = natToDecAux f (n / 10) (decDigitChar (n % 10) :: acc) := by
          simp [natToDecAux, h10]
        have hstep' : natToDec n
            = natToDecAux n (n / 10) [decDigitChar (n % 10)] := by
          simp [natToDec, natToDecAux, h10]
        rw [hstep, ih (n / 10) hdiv f _ (by omega),
          hstep', ih (n / 10) hdiv n _ (by omega)]
        simp

theorem natToDec_step (n : Nat) (h : ¬ n < 10) :
    natToDec n = natToDec (n / 10) ++ [decDigitChar (n % 10)] := by
  have : natToDec n = natToDecAux n (n / 10) [decDigitChar (n % 10)] := by
    simp [natToDec, natToDecAux, h]
  rw [this, natToDecAux_eq (n / 10) n _ (by
    have : n / 10 < n := Nat.div_lt_self (by omega) (by omega)
    omega)]

theorem natToDec_small (n : Nat) (h : n < 10) : natToDec n = [decDigitChar n] := by
  simp [natToDec, natToDecAux, h]

/-- Every character emitted by the decimal renderer is a digit character. -/
theorem natToDec_mem (n : Nat) :
    ∀ ch ∈ natToDec n, ∃ d, d < 10 ∧ ch = decDigitChar d := by
  induction n using Nat.strong_induction_on with
  | _ n ih =>
    intro ch hch
    by_cases h10 : n < 10
    · rw [natToDec_small n h10] at hch
      simp at hch
      exact ⟨n, h10, hch⟩
    · rw [natToDec_step n h10] at hch
      rcases List.mem_append.1 hch with h | h
      · exact ih (n / 10) (Nat.div_lt_self (by omega) (by omega)) ch h
      · simp at h
        exact ⟨n % 10, Nat.mod_lt _ (by omega), h⟩

theorem decDigitChar_toNat (d : Nat) (h : d < 10) : (decDigitChar d).toNat = 48 + d := by
  interval_cases d <;> decide

theorem decDigitChar_ne_colon (d : Nat) (h : d < 10) : decDigitChar d ≠ ':' := by
  interval_cases d <;> decide

theorem decDigitChar_ne_x (d : Nat) (h : d < 10) : decDigitChar d ≠ 'x' := by
  interval_cases d <;> decide

theorem decVal_append_one (l : List Char) (ch : Char) :
    decVal (l ++ [ch]) = 10 * decVal l + (ch.toNat - 48) := by
  simp [decVal, List.foldl_append]

/-- Round trip: parsing the decimal rendering of `n` recovers `n`. -/
theorem decVal_natToDec (n : Nat) : decVal (natToDec n) = n := by
  induction n using Nat.strong_induction_on with
  | _ n ih =>
    by_cases h10 : n < 10
    · rw [natToDec_small n h10]
      simp [decVal, decDigitChar_toNat n h10]
    · rw [natToDec_step n h10, decVal_append_one,
        ih (n / 10) (Nat.div_lt_self (by omega) (by omega)),
        decDigitChar_toNat (n % 10) (Nat.mod_lt _ (by omega))]
      omega

/-! ## Channel-ID codec

Go source (lnd package):

  func convertChannelIDToString(channelID uint64) string {
      blockHeight := channelID >> 40
      blockIndex := (channelID >> 16) & ((1 << 24) - 1)
      outputIndex := channelID & ((1 << 16) - 1)
      return fmt.Sprintf("%d:%d:%d", blockHeight, blockIndex, outputIndex)
  }

and in writeChannelsToMemgraph the batch form substitutes x for the colon:

  chanID := strings.Replace(convertChannelIDToString(edge.ChannelID), ":", "x", -1)
-/

/-- Character list of `convertChannelIDToString`: the three bit-decomposed
components rendered in decimal, separated by colons. -/
def encodeChars (c : Nat) : List Char :=
  natToDec (c >>> 40) ++ ':' ::
    (natToDec ((c >>> 16) &&& ((1 <<< 24) - 1)) ++ ':' ::
      natToDec (c &&& ((1 <<< 16) - 1)))

/-- `convertChannelIDToString` from the lnd package. -/
def convertChannelIDToString (channelID : Nat) : String :=
  String.mk (encodeChars channelID)

/-- Go `strings.Replace(s, old, new, -1)` specialised to one-character
patterns: every occurrence of `a` is replaced by `b`. -/
def replaceChar (a b : Char) (l : List Char) : List Char :=
  l.map (fun ch => if ch = a then b else ch)

/-- The x-substituted channel id used by the batched bulk writer. -/
def xEncodeChars (c : Nat) : List Char := replaceChar ':' 'x' (encodeChars c)

/-- The x-substituted channel id as a string (the `chan_id` value of every
relation row built by `writeChannelsToMemgraph`). -/
def xEncodeString (c : Nat) : String := String.mk (xEncodeChars c)

/-- Split a character list at every occurrence of the separator. -/
def splitOnChar (sep : Char) : List Char → List (List Char)
  | [] => [[]]
  | ch :: rest =>
    if ch = sep then [] :: splitOnChar sep rest
    else
      match splitOnChar sep rest with
      | [] => [[ch]]
      | s :: ss => (ch :: s) :: ss

theorem splitOnChar_no_sep (sep : Char) (l : List Char) (h : sep ∉ l) :
    splitOnChar sep l = [l] := by
  induction l with
  | nil => rfl
  | cons ch rest ih =>
    have hne : ch ≠ sep := fun he => h (he ▸ List.mem_cons_self _ _)
    have hrest : sep ∉ rest := fun hm => h (List.mem_cons_of_mem _ hm)
    simp [splitOnChar, hne, ih hrest]

theorem splitOnChar_append (sep : Char) (a rest : List Char) (h : sep ∉ a) :
    splitOnChar sep (a ++ sep :: rest) = a :: splitOnChar sep rest := by
  induction a with
  | nil => simp [splitOnChar]
  | cons ch tl ih =>
    have hne : ch ≠ sep := fun he => h (he ▸ List.mem_cons_self _ _)
    have htl : sep ∉ tl := fun hm => h (List.mem_cons_of_mem _ hm)
    have hrec := ih htl
    simp [splitOnChar, hne, hrec]

theorem colon_not_mem_natToDec (n : Nat) : ':' ∉ natToDec n := by
  intro h
  obtain ⟨d, hd, he⟩ := natToDec_mem n ':' h
  exact decDigitChar_ne_colon d hd he.symm

theorem x_not_mem_natToDec (n : Nat) : 'x' ∉ natToDec n := by
  intro h
  obtain ⟨d, hd, he⟩ := natToDec_mem n 'x' h
  exact decDigitChar_ne_x d hd he.symm

/-- Every character of the colon-separated encoding is a colon or a digit. -/
theorem encodeChars_mem (c : Nat) :
    ∀ ch ∈ encodeChars c, ch = ':' ∨ ∃ d, d < 10 ∧ ch = decDigitChar d := by
  intro ch hch
  simp only [encodeChars, List.mem_append, List.mem_cons] at hch
  rcases hch with h | h | h | h | h
  · exact Or.inr (natToDec_mem _ ch h)
  · exact Or.inl h
  · exact Or.inr (natToDec_mem _ ch h)
  · exact Or.inl h
  · exact Or.inr (natToDec_mem _ ch h)

theorem x_not_mem_encodeChars (c : Nat) : 'x' ∉ encodeChars c := by
  intro h
  rcases encodeChars_mem c 'x' h with h' | ⟨d, hd, h'⟩
  · exact absurd h' (by decide)
  · exact decDigitChar_ne_x d hd h'.symm

theorem colon_mem_xEncodeChars_image (c : Nat) : 'x' ∈ xEncodeChars c := by
  have hmem : ':' ∈ encodeChars c := by
    simp [encodeChars]
  simp only [xEncodeChars, replaceChar, List.mem_map]
  exact ⟨':', hmem, by simp⟩

theorem colon_not_mem_xEncodeChars (c : Nat) : ':' ∉ xEncodeChars c := by
  intro h
  simp only [xEncodeChars, replaceChar, List.mem_map] at h
  obtain ⟨ch, hch, he⟩ := h
  by_cases hc : ch = ':'
  · rw [if_pos hc] at he
    exact absurd he (by decide)
  · rw [if_neg hc] at he
    exact hc he

/-- Replacing `:` by `x` and then `x` by `:` is the identity on lists that
contain no `x`. -/
theorem replaceChar_roundtrip (l : List Char) (h : 'x' ∉ l) :
    replaceChar 'x' ':' (replaceChar ':' 'x' l) = l := by
  induction l with
  | nil => rfl
  | cons ch tl ih =>
    have hne : ch ≠ 'x' := fun he => h (he ▸ List.mem_cons_self _ _)
    have htl : 'x' ∉ tl := fun hm => h (List.mem_cons_of_mem _ hm)
    by_cases hc : ch = ':'
    · simp [replaceChar, hc] at ih ⊢
      simpa [replaceChar] using ih htl
    · simp only [replaceChar, List.map_cons, if_neg hc, if_neg hne]
      have := ih htl
      simp only [replaceChar] at this
      rw [this]

theorem mask24_eq : (1 <<< 24) - 1 = 2 ^ 24 - 1 := by decide

theorem mask16_eq : (1 <<< 16) - 1 = 2 ^ 16 - 1 := by decide

/-- C4: `encode(c)` is the string `"{height}:{index}:{output}"` with
`height = c >> 40`, `index` the next 24 bits and `output` the bottom 16
bits; splitting the string at the colons recovers the decimal renderings of
the three components, parsing each rendering recovers the component values,
the components recompose to `c` by the same decomposition, and the
x-substituted form used for batch writes is reversed by replacing every
`x` with `:`. -/
theorem convertChannelIDToString_codec (c : Nat) :
    convertChannelIDToString c
      = String.mk (natToDec (c >>> 40) ++ ':' ::
          (natToDec ((c >>> 16) &&& ((1 <<< 24) - 1)) ++ ':' ::
            natToDec (c &&& ((1 <<< 16) - 1))))
    ∧ c >>> 40 = c / 2 ^ 40
    ∧ (c >>> 16) &&& ((1 <<< 24) - 1) = c / 2 ^ 16 % 2 ^ 24
    ∧ c &&& ((1 <<< 16) - 1) = c % 2 ^ 16
    ∧ splitOnChar ':' (encodeChars c)
      = [natToDec (c >>> 40),
         natToDec ((c >>> 16) &&& ((1 <<< 24) - 1)),
         natToDec (c &&& ((1 <<< 16) - 1))]
    ∧ decVal (natToDec (c >>> 40)) = c >>> 40
    ∧ decVal (natToDec ((c >>> 16) &&& ((1 <<< 24) - 1)))
      = (c >>> 16) &&& ((1 <<< 24) - 1)
    ∧ decVal (natToDec (c &&& ((1 <<< 16) - 1))) = c &&& ((1 <<< 16) - 1)
    ∧ ((c >>> 40) <<< 40) + (((c >>> 16) &&& ((1 <<< 24) - 1)) <<< 16)
        + (c &&& ((1 <<< 16) - 1)) = c
    ∧ replaceChar 'x' ':' (xEncodeChars c) = encodeChars c := by
  have h40 : c >>> 40 = c / 2 ^ 40 := Nat.shiftRight_eq_div_pow c 40
  have h16 : c >>> 16 = c / 2 ^ 16 := Nat.shiftRight_eq_div_pow c 16
  have hm24 : (c >>> 16) &&& ((1 <<< 24) - 1) = c / 2 ^ 16 % 2 ^ 24 := by
    rw [mask24_eq, Nat.and_pow_two_sub_one_eq_mod, h16]
  have hm16 : c &&& ((1 <<< 16) - 1) = c % 2 ^ 16 := by
    rw [mask16_eq, Nat.and_pow_two_sub_one_eq_mod]
  refine ⟨rfl, h40, hm24, hm16, ?_, decVal_natToDec _, decVal_natToDec _,
    decVal_natToDec _, ?_, ?_⟩
  · show splitOnChar ':' (natToDec (c >>> 40) ++ ':' ::
        (natToDec ((c >>> 16) &&& ((1 <<< 24) - 1)) ++ ':' ::
          natToDec (c &&& ((1 <<< 16) - 1)))) = _
    rw [splitOnChar_append ':' _ _ (colon_not_mem_natToDec _),
      splitOnChar_append ':' _ _ (colon_not_mem_natToDec _),
      splitOnChar_no_sep ':' _ (colon_not_mem_natToDec _)]
  · rw [h40, hm24, hm16, Nat.shiftLeft_eq, Nat.shiftLeft_eq]
    omega
  · exact replaceChar_roundtrip _ (x_not_mem_encodeChars c)

/-! ## Generic merge-upsert machinery

Both import paths write edges with Cypher `MERGE ... SET ...`, i.e. an
upsert keyed by the merge pattern.  We model the edge table of the store as
a function from merge keys to optional property records, and a sequence of
upserts as a fold.  The evaluation lemma below (`applyWrites_eval`) shows
the final table is determined by the last write per key, which yields
idempotence of replaying the same write sequence. -/

/-- Point update of a key-indexed table (the effect of one `MERGE ... SET`). -/
def updTable {κ ν : Type} [DecidableEq κ] (m : κ → Option ν) (k : κ) (v : ν) :
    κ → Option ν :=
  fun k' => if k' = k then some v else m k'

/-- Apply a sequence of keyed upserts in order. -/
def applyWrites {κ ν : Type} [DecidableEq κ] (ws : List (κ × ν)) (m : κ → Option ν) :
    κ → Option ν :=
  ws.foldl (fun m kv => updTable m kv.1 kv.2) m

/-- The last value written at key `k` by the sequence, if any. -/
def lastWrite {κ ν : Type} [DecidableEq κ] : List (κ × ν) → κ → Option ν
  | [], _ => none
  | kv :: ws, k =>
    match lastWrite ws k with
    | some v => some v
    | none => if kv.1 = k then some kv.2 else none

theorem applyWrites_nil {κ ν : Type} [DecidableEq κ] (m : κ → Option ν) :
    applyWrites [] m = m := rfl

theorem applyWrites_cons {κ ν : Type} [DecidableEq κ] (kv : κ × ν)
    (ws : List (κ × ν)) (m : κ → Option ν) :
    applyWrites (kv :: ws) m = applyWrites ws (updTable m kv.1 kv.2) := rfl

theorem applyWrites_append {κ ν : Type} [DecidableEq κ] (ws ws' : List (κ × ν))
    (m : κ → Option ν) :
    applyWrites (ws ++ ws') m = applyWrites ws' (applyWrites ws m) := by
  simp [applyWrites, List.foldl_append]

theorem applyWrites_eval {κ ν : Type} [DecidableEq κ] (ws : List (κ × ν))
    (m : κ → Option ν) (k : κ) :
    applyWrites ws m k
      = match lastWrite ws k with
        | some v => some v
        | none => m k := by
  induction ws generalizing m with
  | nil => simp [applyWrites, lastWrite]
  | cons kv ws ih =>
    rw [applyWrites_cons, ih]
    cases hlw : lastWrite ws k with
    | some v => simp [lastWrite, hlw]
    | none =>
      by_cases hk : kv.1 = k
      · simp [lastWrite, hlw, updTable, hk]
      · have hk' : ¬ k = kv.1 := fun h => hk h.symm
        simp [lastWrite, hlw, updTable, hk, hk']

/-- Replaying the same write sequence a second time changes nothing. -/
theorem applyWrites_idem {κ ν : Type} [DecidableEq κ] (ws : List (κ × ν))
    (m : κ → Option ν) :
    applyWrites ws (applyWrites ws m) = applyWrites ws m := by
  funext k
  simp only [applyWrites_eval]
  cases h : lastWrite ws k <;> simp [h]

/-! ## Snapshot-file importer (lnd package, snapshot path)

Go structures: `Node`, `RoutingPolicy`, `ChannelEdge`, `Graph` of the
describegraph.json document; the write functions are
`writeSnapshotNodesToMemgraph`, `writeSnapshotChannelsToMemgraph` and
`writeChannelPolicyToMemgraphSnapshot`.  The snapshot node query is

  MERGE (n:node {pubkey: $pubKey, alias: $alias, is_wumbo: $is_wumbo})

(merge key is all three properties), and the per-policy edge query is

  MATCH (a:node {pubkey: $node1}), (b:node {pubkey: $node2})
  MERGE (a)-[r:edge {channel_id: $chanID, capacity: $capacity}]->(b)
  SET r.fee_base_msat = ..., r.fee_rate_milli_msat = ..., r.time_lock_delta = ...,
      r.disabled = ..., r.min_htlc_msat = ..., r.max_htlc_msat = ...

issued only when the policy's MaxHtlcMsat is a non-empty string.  The store
is modelled with node records as an insertion-ordered list (Cypher node
instances are identified here by their property values) and the edge table
keyed by (source pubkey, destination pubkey, channel_id, capacity). -/

/-- A node record of the describegraph.json document; `featureKeys` is the
key set of the Features map (only presence of key "19" is consulted). -/
structure SnapNodeJson where
  pubKey : String
  nodeAlias : String
  featureKeys : List String
deriving DecidableEq, Repr

/-- A directional routing policy of the snapshot document. -/
structure SnapPolicy where
  timeLockDelta : Int
  minHtlc : String
  feeBaseMsat : String
  feeRateMilliMsat : String
  disabled : Bool
  maxHtlcMsat : String
deriving DecidableEq, Repr

/-- A channel edge of the snapshot document. -/
structure SnapChannelJson where
  channelId : Nat
  capacity : String
  node1Pub : String
  node2Pub : String
  node1Policy : SnapPolicy
  node2Policy : SnapPolicy
deriving DecidableEq, Repr

/-- The top-level snapshot document. -/
structure SnapGraph where
  nodes : List SnapNodeJson
  edges : List SnapChannelJson
deriving DecidableEq, Repr

/-- A stored node: the three merge-key properties of the snapshot node query. -/
structure SnapNodeRec where
  pubkey : String
  nodeAlias : String
  isWumbo : Bool
deriving DecidableEq, Repr

/-- Merge key of a stored directed edge on the snapshot path. -/
structure SnapEdgeKey where
  src : String
  dst : String
  chanId : String
  capacity : String
deriving DecidableEq, Repr

/-- Properties SET on a stored directed edge by the snapshot policy query. -/
structure SnapEdgeProps where
  feeBase : String
  feeRate : String
  timeLock : Int
  disabled : Bool
  minHtlc : String
  maxHtlc : String
deriving DecidableEq, Repr

/-- The graph store as seen by the snapshot import path. -/
structure SnapStore where
  nodes : List SnapNodeRec
  edges : SnapEdgeKey → Option SnapEdgeProps

/-- The node record derived from one snapshot node (is_wumbo is presence of
feature bit 19). -/
def snapNodeRec (n : SnapNodeJson) : SnapNodeRec :=
  { pubkey := n.pubKey, nodeAlias := n.nodeAlias,
    isWumbo := n.featureKeys.contains "19" }

/-- One iteration of `writeSnapshotNodesToMemgraph`: MERGE on all three
properties creates the record only when no identical record exists. -/
def writeSnapshotNode (st : SnapStore) (n : SnapNodeJson) : SnapStore :=
  if snapNodeRec n ∈ st.nodes then st
  else { st with nodes := st.nodes ++ [snapNodeRec n] }

/-- Does a stored node with the given pubkey exist (the MATCH of the edge
query)? -/
def snapHasNode (nodes : List SnapNodeRec) (p : String) : Bool :=
  nodes.any (fun r => r.pubkey = p)

/-- The edge properties SET by `writeChannelPolicyToMemgraphSnapshot`. -/
def snapPolicyProps (pol : SnapPolicy) : SnapEdgeProps :=
  { feeBase := pol.feeBaseMsat, feeRate := pol.feeRateMilliMsat,
    timeLock := pol.timeLockDelta, disabled := pol.disabled,
    minHtlc := pol.minHtlc, maxHtlc := pol.maxHtlcMsat }

/-- `writeChannelPolicyToMemgraphSnapshot`: issue the MATCH/MERGE/SET query
when the policy's max-HTLC bound is non-empty; the MERGE lands only when
both endpoints match. -/
def writeChannelPolicySnap (st : SnapStore) (capacity : String) (pol : SnapPolicy)
    (node1PubKey node2PubKey chanID : String) : SnapStore :=
  if pol.maxHtlcMsat ≠ "" then
    if snapHasNode st.nodes node1PubKey ∧ snapHasNode st.nodes node2PubKey then
      { st with
        edges := updTable st.edges
          ⟨node1PubKey, node2PubKey, chanID, capacity⟩ (snapPolicyProps pol) }
    else st
  else st

/-- One iteration of `writeSnapshotChannelsToMemgraph`: convert the channel
id and write both directional policies. -/
def writeSnapshotChannel (st : SnapStore) (e : SnapChannelJson) : SnapStore :=
  writeChannelPolicySnap
    (writeChannelPolicySnap st e.capacity e.node1Policy e.node1Pub e.node2Pub
      (convertChannelIDToString e.channelId))
    e.capacity e.node2Policy e.node2Pub e.node1Pub
    (convertChannelIDToString e.channelId)

/-- `writeSnapshotNodesToMemgraph`: the per-node loop. -/
def writeSnapshotNodesToMemgraph (st : SnapStore) (ns : List SnapNodeJson) :
    SnapStore :=
  ns.foldl writeSnapshotNode st

/-- `writeSnapshotChannelsToMemgraph`: the per-channel loop. -/
def writeSnapshotChannelsToMemgraph (st : SnapStore) (es : List SnapChannelJson) :
    SnapStore :=
  es.foldl writeSnapshotChannel st

/-- `WriteSnapshotToMemgraph` on an already-parsed document: nodes first,
then channels (index creation does not touch the data model). -/
def writeSnapshotToMemgraph (g : SnapGraph) (st : SnapStore) : SnapStore :=
  writeSnapshotChannelsToMemgraph (writeSnapshotNodesToMemgraph st g.nodes) g.edges

/-- The keyed writes that land for one directional policy, given the node
table in effect (node writes never happen during the channel pass, so the
node table is fixed). -/
def snapWritesPolicy (nodes : List SnapNodeRec) (capacity : String)
    (pol : SnapPolicy) (node1PubKey node2PubKey chanID : String) :
    List (SnapEdgeKey × SnapEdgeProps) :=
  if pol.maxHtlcMsat ≠ "" then
    if snapHasNode nodes node1PubKey ∧ snapHasNode nodes node2PubKey then
      [(⟨node1PubKey, node2PubKey, chanID, capacity⟩, snapPolicyProps pol)]
    else []
  else []

/-- The keyed writes that land for one snapshot channel. -/
def snapWritesChannel (nodes : List SnapNodeRec) (e : SnapChannelJson) :
    List (SnapEdgeKey × SnapEdgeProps) :=
  snapWritesPolicy nodes e.capacity e.node1Policy e.node1Pub e.node2Pub
      (convertChannelIDToString e.channelId)
    ++ snapWritesPolicy nodes e.capacity e.node2Policy e.node2Pub e.node1Pub
      (convertChannelIDToString e.channelId)

/-- The keyed writes that land for a list of snapshot channels. -/
def snapWritesList (nodes : List SnapNodeRec) :
    List SnapChannelJson → List (SnapEdgeKey × SnapEdgeProps)
  | [] => []
  | e :: es => snapWritesChannel nodes e ++ snapWritesList nodes es

theorem writeChannelPolicySnap_eq (st : SnapStore) (capacity : String)
    (pol : SnapPolicy) (n1 n2 cid : String) :
    writeChannelPolicySnap st capacity pol n1 n2 cid
      = ⟨st.nodes,
         applyWrites (snapWritesPolicy st.nodes capacity pol n1 n2 cid) st.edges⟩ := by
  cases st with
  | mk ns es =>
    by_cases hp : pol.maxHtlcMsat ≠ ""
    · by_cases hn : snapHasNode ns n1 ∧ snapHasNode ns n2
      · simp [writeChannelPolicySnap, snapWritesPolicy, hp, hn, applyWrites]
      · simp [writeChannelPolicySnap, snapWritesPolicy, hp, hn, applyWrites]
    · simp [writeChannelPolicySnap, snapWritesPolicy, hp, applyWrites]

theorem writeSnapshotChannel_eq (st : SnapStore) (e : SnapChannelJson) :
    writeSnapshotChannel st e
      = ⟨st.nodes, applyWrites (snapWritesChannel st.nodes e) st.edges⟩ := by
  rw [writeSnapshotChannel, writeChannelPolicySnap_eq, writeChannelPolicySnap_eq,
    snapWritesChannel, applyWrites_append]

theorem writeSnapshotChannelsToMemgraph_eq (es : List SnapChannelJson) :
    ∀ st : SnapStore, writeSnapshotChannelsToMemgraph st es
      = ⟨st.nodes, applyWrites (snapWritesList st.nodes es) st.edges⟩ := by
  induction es with
  | nil =>
    intro st
    cases st with
    | mk ns es' => simp [writeSnapshotChannelsToMemgraph, snapWritesList, applyWrites]
  | cons e es ih =>
    intro st
    have hstep : writeSnapshotChannelsToMemgraph st (e :: es)
        = writeSnapshotChannelsToMemgraph (writeSnapshotChannel st e) es := rfl
    rw [hstep, ih, writeSnapshotChannel_eq, snapWritesList, applyWrites_append]

theorem writeSnapshotNode_edges (st : SnapStore) (n : SnapNodeJson) :
    (writeSnapshotNode st n).edges = st.edges := by
  by_cases h : snapNodeRec n ∈ st.nodes <;> simp [writeSnapshotNode, h]

theorem writeSnapshotNode_mono (st : SnapStore) (n : SnapNodeJson)
    (r : SnapNodeRec) (h : r ∈ st.nodes) : r ∈ (writeSnapshotNode st n).nodes := by
  by_cases hn : snapNodeRec n ∈ st.nodes <;>
    simp [writeSnapshotNode, hn, List.mem_append, h]

theorem writeSnapshotNode_self (st : SnapStore) (n : SnapNodeJson) :
    snapNodeRec n ∈ (writeSnapshotNode st n).nodes := by
  by_cases hn : snapNodeRec n ∈ st.nodes <;>
    simp [writeSnapshotNode, hn, List.mem_append]

theorem writeSnapshotNodesToMemgraph_edges (ns : List SnapNodeJson) :
    ∀ st : SnapStore, (writeSnapshotNodesToMemgraph st ns).edges = st.edges := by
  induction ns with
  | nil => intro st; rfl
  | cons n ns ih =>
    intro st
    have hstep : writeSnapshotNodesToMemgraph st (n :: ns)
        = writeSnapshotNodesToMemgraph (writeSnapshotNode st n) ns := rfl
    rw [hstep, ih, writeSnapshotNode_edges]

theorem writeSnapshotNodesToMemgraph_mono (ns : List SnapNodeJson) :
    ∀ (st : SnapStore) (r : SnapNodeRec), r ∈ st.nodes →
      r ∈ (writeSnapshotNodesToMemgraph st ns).nodes := by
  induction ns with
  | nil => intro st r h; exact h
  | cons n ns ih =>
    intro st r h
    exact ih (writeSnapshotNode st n) r (writeSnapshotNode_mono st n r h)

theorem writeSnapshotNodesToMemgraph_all (ns : List SnapNodeJson) :
    ∀ st : SnapStore, ∀ n ∈ ns,
      snapNodeRec n ∈ (writeSnapshotNodesToMemgraph st ns).nodes := by
  induction ns with
  | nil => intro st n h; cases h
  | cons n0 ns ih =>
    intro st n h
    rcases List.mem_cons.1 h with he | hm
    · subst he
      exact writeSnapshotNodesToMemgraph_mono ns (writeSnapshotNode st n) _
        (writeSnapshotNode_self st n)
    · exact ih (writeSnapshotNode st n0) n hm

theorem writeSnapshotNodesToMemgraph_noop (ns : List SnapNodeJson) :
    ∀ st : SnapStore, (∀ n ∈ ns, snapNodeRec n ∈ st.nodes) →
      writeSnapshotNodesToMemgraph st ns = st := by
  induction ns with
  | nil => intro st _; rfl
  | cons n ns ih =>
    intro st h
    have hn : snapNodeRec n ∈ st.nodes := h n (List.mem_cons_self _ _)
    have hstep : writeSnapshotNodesToMemgraph st (n :: ns)
        = writeSnapshotNodesToMemgraph (writeSnapshotNode st n) ns := rfl
    have hw : writeSnapshotNode st n = st := by simp [writeSnapshotNode, hn]
    rw [hstep, hw]
    exact ih st (fun n' h' => h n' (List.mem_cons_of_mem _ h'))

/-- C2 (snapshot-file path): importing the same parsed snapshot twice leaves
the store exactly as importing it once — node and edge records and all
attribute values agree, so re-import merges in place and duplicates nothing. -/
theorem writeSnapshotToMemgraph_idempotent (g : SnapGraph) (st : SnapStore) :
    writeSnapshotToMemgraph g (writeSnapshotToMemgraph g st)
      = writeSnapshotToMemgraph g st := by
  rw [writeSnapshotToMemgraph, writeSnapshotToMemgraph]
  set st1 := writeSnapshotNodesToMemgraph st g.nodes with hst1
  have hres : writeSnapshotChannelsToMemgraph st1 g.edges
      = ⟨st1.nodes, applyWrites (snapWritesList st1.nodes g.edges) st1.edges⟩ :=
    writeSnapshotChannelsToMemgraph_eq g.edges st1
  have hall : ∀ n ∈ g.nodes,
      snapNodeRec n ∈ (writeSnapshotChannelsToMemgraph st1 g.edges).nodes := by
    intro n hn
    rw [hres]
    exact writeSnapshotNodesToMemgraph_all g.nodes st n hn
  rw [writeSnapshotNodesToMemgraph_noop g.nodes _ hall, hres,
    writeSnapshotChannelsToMemgraph_eq]
  simp only
  rw [applyWrites_idem]

/-! ## Live-pull bulk importer (lnd package, live path)

`writeNodesToMemgraph` upserts nodes in UNWIND batches with

  MERGE (n:node {pubkey: row.pubKey})
  SET n.alias = row.alias, n.addresses = row.addresses

(merge key is the pubkey alone), and `writeChannelsToMemgraph` first
flattens each channel into one relation row per present directional policy
(`Node1Policy != nil`, `Node2Policy != nil`), then upserts the rows in
UNWIND batches with

  MATCH (a:node {pubkey: row.from}), (b:node {pubkey: row.to})
  MERGE (a)-[r:edge {channel_id: row.chan_id, capacity: row.capacity}]->(b)
  SET r.fee_base_msat = ..., ..., r.min_liquidity = ..., r.max_liquidity = ...

UNWIND processes the rows of each batch in order and batches are consumed
in order, so the overall write sequence is the row sequence; the batch
partition itself (and its failure behaviour) is modelled separately for the
batch-writer claims. -/

/-- A node of the live-pulled graph (fields used by the bulk writer). -/
structure LiveNode where
  pubKey : String
  nodeAlias : String
  addresses : List String
deriving DecidableEq, Repr

/-- One direction's routing policy of a live-pulled channel edge. -/
structure LivePolicy where
  feeBaseMsat : Nat
  feeRateMilliMsat : Nat
  timeLockDelta : Nat
  disabled : Bool
  minHtlcMsat : Nat
  maxHtlcMsat : Nat
deriving DecidableEq, Repr

/-- A live-pulled channel edge; the policies are pointers in Go, hence
optional here. -/
structure LiveChannelEdge where
  channelID : Nat
  capacity : Int
  node1 : String
  node2 : String
  node1Policy : Option LivePolicy
  node2Policy : Option LivePolicy
deriving DecidableEq, Repr

/-- The live-pulled graph. -/
structure LiveGraph where
  nodes : List LiveNode
  edges : List LiveChannelEdge
deriving DecidableEq, Repr

/-- One relation row of `writeChannelsToMemgraph`'s `relations` list. -/
structure RelRow where
  rowFrom : String
  rowTo : String
  chanId : String
  capacity : Int
  feeBase : Nat
  feeRate : Nat
  timeLock : Nat
  disabled : Bool
  minHtlc : Nat
  maxHtlc : Nat
  minLiquidity : Nat
  maxLiquidity : Int
deriving DecidableEq, Repr

/-- The relation row emitted for one present directional policy. -/
def relRowOfPolicy (chanID : String) (capacity : Int) (src dst : String)
    (pol : LivePolicy) : RelRow :=
  { rowFrom := src, rowTo := dst, chanId := chanID, capacity := capacity,
    feeBase := pol.feeBaseMsat, feeRate := pol.feeRateMilliMsat,
    timeLock := pol.timeLockDelta, disabled := pol.disabled,
    minHtlc := pol.minHtlcMsat, maxHtlc := pol.maxHtlcMsat,
    minLiquidity := 0, maxLiquidity := capacity }

/-- The relation rows appended for one channel edge: one per present
directional policy (Node1Policy first, then Node2Policy). -/
def relationsForEdge (e : LiveChannelEdge) : List RelRow :=
  (match e.node1Policy with
   | some pol => [relRowOfPolicy (xEncodeString e.channelID) e.capacity
       e.node1 e.node2 pol]
   | none => []) ++
  (match e.node2Policy with
   | some pol => [relRowOfPolicy (xEncodeString e.channelID) e.capacity
       e.node2 e.node1 pol]
   | none => [])

/-- The full `relations` list built by `writeChannelsToMemgraph`'s first loop. -/
def buildRelations (edges : List LiveChannelEdge) : List RelRow :=
  edges.foldl (fun acc e => acc ++ relationsForEdge e) []

/-- Node properties SET by the bulk node upsert. -/
structure BulkNodeProps where
  nodeAlias : String
  addresses : List String
deriving DecidableEq, Repr

/-- Merge key of a bulk-written directed edge: both endpoint pubkeys from
the MATCH and the two merge-pattern properties channel_id and capacity. -/
structure BulkEdgeKey where
  src : String
  dst : String
  chanId : String
  capacity : Int
deriving DecidableEq, Repr

/-- Edge properties SET by the bulk edge upsert. -/
structure BulkEdgeProps where
  feeBase : Nat
  feeRate : Nat
  timeLock : Nat
  disabled : Bool
  minHtlc : Nat
  maxHtlc : Nat
  minLiquidity : Nat
  maxLiquidity : Int
deriving DecidableEq, Repr

/-- The graph store as seen by the live-pull bulk import path. -/
structure BulkStore where
  nodes : String → Option BulkNodeProps
  edges : BulkEdgeKey → Option BulkEdgeProps

/-- The keyed node write for one live node record. -/
def bulkNodeWrite (n : LiveNode) : String × BulkNodeProps :=
  (n.pubKey, ⟨n.nodeAlias, n.addresses⟩)

/-- `writeNodesToMemgraph`: the row sequence of the batched node upserts. -/
def writeNodesToMemgraph (st : BulkStore) (ns : List LiveNode) : BulkStore :=
  { st with nodes := applyWrites (ns.map bulkNodeWrite) st.nodes }

/-- The properties record SET by the bulk edge upsert for one relation row. -/
def bulkRowProps (r : RelRow) : BulkEdgeProps :=
  { feeBase := r.feeBase, feeRate := r.feeRate, timeLock := r.timeLock,
    disabled := r.disabled, minHtlc := r.minHtlc, maxHtlc := r.maxHtlc,
    minLiquidity := r.minLiquidity, maxLiquidity := r.maxLiquidity }

/-- The merge key of the bulk edge upsert for one relation row. -/
def bulkRowKey (r : RelRow) : BulkEdgeKey :=
  ⟨r.rowFrom, r.rowTo, r.chanId, r.capacity⟩

/-- Apply one relation row: the MATCH requires both endpoint nodes; when it
succeeds, MERGE/SET upserts the edge at its merge key. -/
def applyRelRow (st : BulkStore) (r : RelRow) : BulkStore :=
  if (st.nodes r.rowFrom).isSome ∧ (st.nodes r.rowTo).isSome then
    { st with edges := updTable st.edges (bulkRowKey r) (bulkRowProps r) }
  else st

/-- `writeChannelsToMemgraph`: build the relation rows, then apply them in
order. -/
def writeChannelsToMemgraph (st : BulkStore) (edges : List LiveChannelEdge) :
    BulkStore :=
  (buildRelations edges).foldl applyRelRow st

/-- `WriteGraphToMemgraph` on a pulled graph: nodes first, then channels. -/
def writeGraphToMemgraph (g : LiveGraph) (st : BulkStore) : BulkStore :=
  writeChannelsToMemgraph (writeNodesToMemgraph st g.nodes) g.edges

/-- The keyed edge writes that land for a row sequence, given the (fixed)
node table. -/
def bulkWritesOfRows (nodes : String → Option BulkNodeProps) :
    List RelRow → List (BulkEdgeKey × BulkEdgeProps)
  | [] => []
  | r :: rs =>
    (if (nodes r.rowFrom).isSome ∧ (nodes r.rowTo).isSome then
      [(bulkRowKey r, bulkRowProps r)]
    else []) ++ bulkWritesOfRows nodes rs

theorem applyRelRow_eq (st : BulkStore) (r : RelRow) :
    applyRelRow st r
      = ⟨st.nodes, applyWrites (bulkWritesOfRows st.nodes [r]) st.edges⟩ := by
  cases st with
  | mk ns es =>
    by_cases h : (ns r.rowFrom).isSome ∧ (ns r.rowTo).isSome
    · simp [applyRelRow, bulkWritesOfRows, h, applyWrites]
    · simp [applyRelRow, bulkWritesOfRows, h, applyWrites]

theorem foldl_applyRelRow_eq (rs : List RelRow) :
    ∀ st : BulkStore, rs.foldl applyRelRow st
      = ⟨st.nodes, applyWrites (bulkWritesOfRows st.nodes rs) st.edges⟩ := by
  induction rs with
  | nil =>
    intro st
    cases st with
    | mk ns es => simp [bulkWritesOfRows, applyWrites]
  | cons r rs ih =>
    intro st
    have hstep : (r :: rs).foldl applyRelRow st = rs.foldl applyRelRow (applyRelRow st r) := rfl
    rw [hstep, ih, applyRelRow_eq]
    show (⟨st.nodes, _⟩ : BulkStore) = _
    rw [show bulkWritesOfRows st.nodes (r :: rs)
        = bulkWritesOfRows st.nodes [r] ++ bulkWritesOfRows st.nodes rs by
      simp [bulkWritesOfRows], applyWrites_append]

theorem writeNodesToMemgraph_edges (st : BulkStore) (ns : List LiveNode) :
    (writeNodesToMemgraph st ns).edges = st.edges := rfl

theorem writeChannelsToMemgraph_eq (st : BulkStore) (edges : List LiveChannelEdge) :
    writeChannelsToMemgraph st edges
      = ⟨st.nodes,
         applyWrites (bulkWritesOfRows st.nodes (buildRelations edges)) st.edges⟩ :=
  foldl_applyRelRow_eq (buildRelations edges) st

theorem writeGraphToMemgraph_eq (g : LiveGraph) (st : BulkStore) :
    writeGraphToMemgraph g st
      = ⟨applyWrites (g.nodes.map bulkNodeWrite) st.nodes,
         applyWrites
           (bulkWritesOfRows (applyWrites (g.nodes.map bulkNodeWrite) st.nodes)
             (buildRelations g.edges))
           st.edges⟩ := by
  have h1 : writeNodesToMemgraph st g.nodes
      = ⟨applyWrites (g.nodes.map bulkNodeWrite) st.nodes, st.edges⟩ := rfl
  rw [writeGraphToMemgraph, h1, writeChannelsToMemgraph_eq]

/-- C2 (live-pull path): writing the same pulled graph twice leaves the
store exactly as writing it once. -/
theorem writeGraphToMemgraph_idempotent (g : LiveGraph) (st : BulkStore) :
    writeGraphToMemgraph g (writeGraphToMemgraph g st) = writeGraphToMemgraph g st := by
  rw [writeGraphToMemgraph_eq g st, writeGraphToMemgraph_eq g _]
  simp only [applyWrites_idem]

/-- C2: for every snapshot input, running the import twice in sequence
leaves the store in the same state as running it once — same node and edge
records, same attribute values, no duplicate edge for an unchanged
(channel id, capacity, direction) triple; the second run's merge-upserts
update fields in place.  Stated for both the snapshot-file import and the
live-pull bulk import. -/
theorem import_twice_eq_import_once :
    (∀ (g : SnapGraph) (st : SnapStore),
      writeSnapshotToMemgraph g (writeSnapshotToMemgraph g st)
        = writeSnapshotToMemgraph g st)
    ∧ (∀ (g : LiveGraph) (st : BulkStore),
      writeGraphToMemgraph g (writeGraphToMemgraph g st)
        = writeGraphToMemgraph g st) :=
  ⟨writeSnapshotToMemgraph_idempotent, writeGraphToMemgraph_idempotent⟩

/-! ## Direction expansion (claim C3) -/

/-- The edge queries issued by `writeChannelPolicyToMemgraphSnapshot` for
one directional policy: one query when the max-HTLC bound is non-empty,
none otherwise (query parameters are its merge key and SET record). -/
def snapPolicyQueries (capacity : String) (pol : SnapPolicy)
    (node1PubKey node2PubKey chanID : String) :
    List (SnapEdgeKey × SnapEdgeProps) :=
  if pol.maxHtlcMsat ≠ "" then
    [(⟨node1PubKey, node2PubKey, chanID, capacity⟩, snapPolicyProps pol)]
  else []

/-- The edge queries issued for one snapshot channel (both directions). -/
def snapChannelQueries (e : SnapChannelJson) : List (SnapEdgeKey × SnapEdgeProps) :=
  snapPolicyQueries e.capacity e.node1Policy e.node1Pub e.node2Pub
      (convertChannelIDToString e.channelId)
    ++ snapPolicyQueries e.capacity e.node2Policy e.node2Pub e.node1Pub
      (convertChannelIDToString e.channelId)

/-- C3: each channel record yields one directed edge write per present
directional policy — 2 when both are present, 1 when exactly one is, 0 when
neither is.  On the live-pull path presence is a non-nil policy pointer; on
the snapshot-file path presence is a non-empty max-HTLC bound. -/
theorem direction_expansion_counts (e : LiveChannelEdge) (ch : SnapChannelJson) :
    (relationsForEdge e).length
      = (if e.node1Policy.isSome then 1 else 0)
        + (if e.node2Policy.isSome then 1 else 0)
    ∧ (snapChannelQueries ch).length
      = (if ch.node1Policy.maxHtlcMsat ≠ "" then 1 else 0)
        + (if ch.node2Policy.maxHtlcMsat ≠ "" then 1 else 0) := by
  constructor
  · obtain ⟨cid, cap, n1, n2, p1, p2⟩ := e
    cases p1 <;> cases p2 <;> simp [relationsForEdge]
  · by_cases h1 : ch.node1Policy.maxHtlcMsat ≠ "" <;>
      by_cases h2 : ch.node2Policy.maxHtlcMsat ≠ "" <;>
        simp [snapChannelQueries, snapPolicyQueries, h1, h2]

/-! ## Live update applier (memgraph package)

`ProcessNodeUpdate`, `ProcessEdgeUpdate` and `ProcessCloseUpdate` turn one
incoming topology event into one parameterised Cypher query;
`ProcessUpdates` commits the queries of one topology message with three
sequential loops (node updates, then edge updates, then close updates),
logging and continuing on a failed commit.

The channel id of a live event is rendered by the upstream client type's
`String()` method (`edgeUpdate.ChannelID.String()`), whose source is not
part of this repository; `channelIDString` models it as the decimal
rendering of the 64-bit id.  The disjointness results needed by the claims
are also proven for the colon-separated short-channel-id rendering, so they
hold under either reading of the dependency. -/

/-- The live channel id string `ChannelID.String()` (dependency-rendered;
modelled as the decimal rendering of the id). -/
def channelIDString (c : Nat) : String := String.mk (natToDec c)

/-- A node announcement of a topology message (fields used by the applier). -/
structure NodeUpdate where
  identityKey : String
  nodeAlias : String
deriving DecidableEq, Repr

/-- The routing policy carried by a live edge update (fields used). -/
structure LiveRoutingPolicy where
  feeBaseMsat : Nat
  feeRateMilliMsat : Nat
  timeLockDelta : Nat
  disabled : Bool
deriving DecidableEq, Repr

/-- A channel edge/policy announcement of a topology message. -/
structure ChannelEdgeUpdate where
  channelID : Nat
  capacity : Int
  advertisingNode : String
  connectingNode : String
  routingPolicy : LiveRoutingPolicy
deriving DecidableEq, Repr

/-- A channel close announcement of a topology message. -/
structure ChannelCloseUpdate where
  channelID : Nat
deriving DecidableEq, Repr

/-- One topology update message. -/
structure GraphTopologyUpdate where
  nodeUpdates : List NodeUpdate
  channelEdgeUpdates : List ChannelEdgeUpdate
  channelCloseUpdates : List ChannelCloseUpdate
deriving DecidableEq, Repr

/-- The parameterised queries the applier can emit, identified by their
template and bound parameters. -/
inductive MGQuery where
  | mergeNodeQ (pubkey nodeAlias : String)
  | disableEdgeQ (channelId : String)
  | mergeEdgeQ (advertising connecting channelId : String)
      (feeBase feeRate timeLock : Nat) (disabled : Bool)
  | deleteEdgeQ (channelId : String)
deriving DecidableEq, Repr

/-- `ProcessNodeUpdate`: MERGE the node by pubkey and SET its alias. -/
def processNodeUpdate (u : NodeUpdate) : MGQuery :=
  MGQuery.mergeNodeQ u.identityKey u.nodeAlias

/-- `ProcessEdgeUpdate`: a disabled policy produces the narrow
MATCH-and-set-disabled query; otherwise MERGE both endpoints and the edge
keyed by channel id and SET the policy fields. -/
def processEdgeUpdate (u : ChannelEdgeUpdate) : MGQuery :=
  if u.routingPolicy.disabled then
    MGQuery.disableEdgeQ (channelIDString u.channelID)
  else
    MGQuery.mergeEdgeQ u.advertisingNode u.connectingNode
      (channelIDString u.channelID) u.routingPolicy.feeBaseMsat
      u.routingPolicy.feeRateMilliMsat u.routingPolicy.timeLockDelta
      u.routingPolicy.disabled

/-- `ProcessCloseUpdate`: MATCH the edge by channel id and DELETE it. -/
def processCloseUpdate (u : ChannelCloseUpdate) : MGQuery :=
  MGQuery.deleteEdgeQ (channelIDString u.channelID)

/-- `ProcessUpdates`: the query commits of one topology message, in loop
order — all node updates, then all edge updates, then all close updates.
A failed commit is only logged, so every query is committed regardless of
earlier failures. -/
def processUpdates (u : GraphTopologyUpdate) : List MGQuery :=
  let afterNodes := u.nodeUpdates.foldl
    (fun acc nu => acc ++ [processNodeUpdate nu]) []
  let afterEdges := u.channelEdgeUpdates.foldl
    (fun acc eu => acc ++ [processEdgeUpdate eu]) afterNodes
  u.channelCloseUpdates.foldl
    (fun acc cu => acc ++ [processCloseUpdate cu]) afterEdges

theorem foldl_append_map {α β : Type} (f : α → β) (l : List α) :
    ∀ init : List β, l.foldl (fun acc x => acc ++ [f x]) init = init ++ l.map f := by
  induction l with
  | nil => intro init; simp
  | cons x xs ih =>
    intro init
    simp only [List.foldl_cons, List.map_cons, ih]
    simp

/-- C6: the writes of one topology message are issued in the fixed order
node updates, then edge updates, then close updates; each update yields
exactly one write, and order within each kind is preserved. -/
theorem processUpdates_order (u : GraphTopologyUpdate) :
    processUpdates u
      = u.nodeUpdates.map processNodeUpdate
        ++ u.channelEdgeUpdates.map processEdgeUpdate
        ++ u.channelCloseUpdates.map processCloseUpdate
    ∧ (processUpdates u).length
      = u.nodeUpdates.length + u.channelEdgeUpdates.length
        + u.channelCloseUpdates.length := by
  have h : processUpdates u
      = u.nodeUpdates.map processNodeUpdate
        ++ u.channelEdgeUpdates.map processEdgeUpdate
        ++ u.channelCloseUpdates.map processCloseUpdate := by
    rw [processUpdates]
    simp only [foldl_append_map]
    simp
  exact ⟨h, by rw [h]; simp; omega⟩

/-! ## Store semantics of the live applier queries (claims C7, C10)

The live store holds node instances (pubkey, optional alias: an endpoint
merged into existence by an edge update has no alias property) and directed
edge instances keyed in Cypher patterns by endpoints and the channel_id
property — the live queries carry no capacity in their merge patterns. -/

/-- A stored node instance on the live-apply path. -/
structure MGNode where
  pubkey : String
  nodeAlias : Option String
deriving DecidableEq, Repr

/-- A stored directed edge instance on the live-apply path. -/
structure MGEdge where
  src : String
  dst : String
  chanId : String
  feeBase : Nat
  feeRate : Nat
  timeLock : Nat
  disabled : Bool
deriving DecidableEq, Repr

/-- The store as seen by the live applier. -/
structure MGStore where
  nodes : List MGNode
  edges : List MGEdge
deriving DecidableEq, Repr

/-- Cypher `MERGE (n:node {pubkey: p}) SET n.alias = a`. -/
def mergeNodeAlias (nodes : List MGNode) (p a : String) : List MGNode :=
  if nodes.any (fun n => decide (n.pubkey = p)) then
    nodes.map (fun n => if n.pubkey = p then { n with nodeAlias := some a } else n)
  else nodes ++ [⟨p, some a⟩]

/-- Cypher `MERGE (n:node {pubkey: p})` with no SET. -/
def ensureNode (nodes : List MGNode) (p : String) : List MGNode :=
  if nodes.any (fun n => decide (n.pubkey = p)) then nodes else nodes ++ [⟨p, none⟩]

/-- Does an edge instance match the `src/dst/channel_id` merge pattern? -/
def edgeMatches (adv conn cid : String) (e : MGEdge) : Bool :=
  decide (e.src = adv ∧ e.dst = conn ∧ e.chanId = cid)

/-- Effect of one applier query on the live store:
`MATCH ... SET r.disabled` updates every matching edge and creates nothing
(a no-op when nothing matches); `MERGE`-based edge updates create missing
endpoints, then update the matched edge or create it; `MATCH ... DELETE r`
removes every matching edge. -/
def applyMGQuery (st : MGStore) : MGQuery → MGStore
  | MGQuery.mergeNodeQ p a => { st with nodes := mergeNodeAlias st.nodes p a }
  | MGQuery.disableEdgeQ cid =>
      { st with
        edges := st.edges.map
          (fun e => if e.chanId = cid then { e with disabled := true } else e) }
  | MGQuery.mergeEdgeQ adv conn cid fb fr tl d =>
      let ns := ensureNode (ensureNode st.nodes adv) conn
      if st.edges.any (edgeMatches adv conn cid) then
        { nodes := ns,
          edges := st.edges.map
            (fun e => if edgeMatches adv conn cid e then
              { e with feeBase := fb, feeRate := fr, timeLock := tl, disabled := d }
            else e) }
      else
        { nodes := ns, edges := st.edges ++ [⟨adv, conn, cid, fb, fr, tl, d⟩] }
  | MGQuery.deleteEdgeQ cid =>
      { st with edges := st.edges.filter (fun e => decide (¬ e.chanId = cid)) }

theorem map_eq_self_of_eq {α : Type} (l : List α) (f : α → α)
    (h : ∀ x ∈ l, f x = x) : l.map f = l := by
  induction l with
  | nil => rfl
  | cons x xs ih =>
    simp only [List.map_cons, h x (List.mem_cons_self _ _),
      ih (fun y hy => h y (List.mem_cons_of_mem _ hy))]

/-- C7: an edge update whose routing policy is disabled produces the narrow
set-disabled query: it creates no node and no edge, only flips the disabled
flag of edges matching the channel id, and is an exact no-op when no edge
matches. -/
theorem disabled_edge_update_frame (u : ChannelEdgeUpdate) (st : MGStore)
    (h : u.routingPolicy.disabled = true) :
    (applyMGQuery st (processEdgeUpdate u)).nodes = st.nodes
    ∧ (applyMGQuery st (processEdgeUpdate u)).edges
      = st.edges.map
          (fun e => if e.chanId = channelIDString u.channelID then
            { e with disabled := true }
          else e)
    ∧ (applyMGQuery st (processEdgeUpdate u)).edges.length = st.edges.length
    ∧ ((∀ e ∈ st.edges, e.chanId ≠ channelIDString u.channelID) →
        applyMGQuery st (processEdgeUpdate u) = st) := by
  have hq : processEdgeUpdate u = MGQuery.disableEdgeQ (channelIDString u.channelID) := by
    simp [processEdgeUpdate, h]
  rw [hq]
  refine ⟨rfl, rfl, by simp [applyMGQuery], ?_⟩
  intro hnone
  cases st with
  | mk ns es =>
    simp only [applyMGQuery, MGStore.mk.injEq, true_and]
    exact map_eq_self_of_eq _ _ (fun e he => by
      rw [if_neg (hnone e he)])

/-- Example topology event and store for the disabled-update claim. -/
def exDisabledUpdate : ChannelEdgeUpdate :=
  { channelID := 5, capacity := 100, advertisingNode := "a",
    connectingNode := "b", routingPolicy := ⟨1, 2, 3, true⟩ }

/-- Example store holding one non-matching edge. -/
def exStore : MGStore :=
  { nodes := [⟨"a", some "alice"⟩],
    edges := [⟨"a", "b", "banana", 0, 0, 0, false⟩] }

theorem disabled_edge_update_frame_witness :
    exDisabledUpdate.routingPolicy.disabled = true
    ∧ applyMGQuery exStore (processEdgeUpdate exDisabledUpdate) = exStore := by
  refine ⟨rfl, ?_⟩
  exact (disabled_edge_update_frame exDisabledUpdate exStore rfl).2.2.2 (by decide)

/-! ## Bulk-import keys versus live-update keys (claim C10) -/

theorem x_not_mem_channelIDChars (a : Nat) : 'x' ∉ natToDec a :=
  x_not_mem_natToDec a

theorem channelIDString_ne_xEncodeString (a b : Nat) :
    channelIDString a ≠ xEncodeString b := by
  intro h
  have hl : natToDec a = xEncodeChars b := by
    injection h
  exact x_not_mem_natToDec a (hl ▸ colon_mem_xEncodeChars_image b)

theorem convertChannelIDToString_ne_xEncodeString (a b : Nat) :
    convertChannelIDToString a ≠ xEncodeString b := by
  intro h
  have hl : encodeChars a = xEncodeChars b := by
    injection h
  have hc : ':' ∈ encodeChars a := by simp [encodeChars]
  exact colon_not_mem_xEncodeChars b (hl ▸ hc)

theorem relationsForEdge_chanId (e : LiveChannelEdge) :
    ∀ r ∈ relationsForEdge e, r.chanId = xEncodeString e.channelID := by
  intro r hr
  obtain ⟨cid, cap, n1, n2, p1, p2⟩ := e
  simp only [relationsForEdge, List.mem_append] at hr
  rcases hr with hr | hr
  · cases p1 with
    | none => simp at hr
    | some pol =>
      simp only [List.mem_singleton] at hr
      subst hr
      rfl
  · cases p2 with
    | none => simp at hr
    | some pol =>
      simp only [List.mem_singleton] at hr
      subst hr
      rfl

theorem filter_eq_self_of_all {α : Type} (l : List α) (p : α → Bool)
    (h : ∀ x ∈ l, p x = true) : l.filter p = l := by
  induction l with
  | nil => rfl
  | cons x xs ih =>
    have hx := h x (List.mem_cons_self _ _)
    have hxs := ih (fun y hy => h y (List.mem_cons_of_mem _ hy))
    simp [List.filter_cons, hx, hxs]

/-- C10: the bulk importer writes directed edges whose channel_id is the
x-substituted encoding and whose merge key includes capacity, while the
live applier's disable, merge and close queries match by the plain
channel-id string with no capacity in the key; the two strings are never
equal (also under the colon-separated short-channel-id rendering), so a
live update never matches, updates, or deletes a bulk-imported edge: the
disable and close queries are exact no-ops on a store of bulk edges, and a
live edge merge leaves every bulk edge unchanged and appends a fresh edge. -/
theorem live_updates_never_touch_bulk_edges :
    (∀ (e : LiveChannelEdge), ∀ r ∈ relationsForEdge e,
      r.chanId = xEncodeString e.channelID
      ∧ bulkRowKey r = ⟨r.rowFrom, r.rowTo, xEncodeString e.channelID, r.capacity⟩)
    ∧ (∀ a b : Nat, channelIDString a ≠ xEncodeString b)
    ∧ (∀ a b : Nat, convertChannelIDToString a ≠ xEncodeString b)
    ∧ (∀ (st : MGStore) (c : Nat),
        (∀ e ∈ st.edges, ∃ b, e.chanId = xEncodeString b) →
          applyMGQuery st (MGQuery.disableEdgeQ (channelIDString c)) = st
          ∧ applyMGQuery st (MGQuery.deleteEdgeQ (channelIDString c)) = st
          ∧ ∀ (adv conn : String) (fb fr tl : Nat) (d : Bool),
              (applyMGQuery st
                  (MGQuery.mergeEdgeQ adv conn (channelIDString c) fb fr tl d)).edges
                = st.edges ++ [⟨adv, conn, channelIDString c, fb, fr, tl, d⟩]) := by
  refine ⟨?_, channelIDString_ne_xEncodeString,
    convertChannelIDToString_ne_xEncodeString, ?_⟩
  · intro e r hr
    exact ⟨relationsForEdge_chanId e r hr,
      by rw [bulkRowKey, relationsForEdge_chanId e r hr]⟩
  · intro st c hbulk
    have hnot : ∀ e ∈ st.edges, e.chanId ≠ channelIDString c := by
      intro e he heq
      obtain ⟨b, hb⟩ := hbulk e he
      exact channelIDString_ne_xEncodeString c b (heq ▸ hb)
    refine ⟨?_, ?_, ?_⟩
    · cases st with
      | mk ns es =>
        simp only [applyMGQuery, MGStore.mk.injEq, true_and]
        exact map_eq_self_of_eq _ _ (fun e he => by
          rw [if_neg (hnot e he)])
    · cases st with
      | mk ns es =>
        simp only [applyMGQuery, MGStore.mk.injEq, true_and]
        exact filter_eq_self_of_all _ _ (fun e he => by
          simp [hnot e he])
    · intro adv conn fb fr tl d
      have hany : st.edges.any (edgeMatches adv conn (channelIDString c)) = false := by
        rw [List.any_eq_false]
        intro e he
        simp only [edgeMatches, decide_eq_true_eq, not_and]
        intro _ _
        exact hnot e he
      simp only [applyMGQuery, hany, Bool.false_eq_true, if_false]

/-- Example store holding one bulk-imported edge (x-substituted channel id
of channel 5). -/
def exBulkStore : MGStore :=
  { nodes := [], edges := [⟨"a", "b", xEncodeString 5, 0, 0, 0, false⟩] }

theorem live_updates_never_touch_bulk_edges_witness :
    applyMGQuery exBulkStore (MGQuery.deleteEdgeQ (channelIDString 5)) = exBulkStore := by
  have h := live_updates_never_touch_bulk_edges
  refine (h.2.2.2 exBulkStore 5 ?_).2.1
  intro e he
  simp only [exBulkStore, List.mem_singleton] at he
  exact ⟨5, by rw [he]⟩

/-! ## Sync lifecycle controller (routes package)

The routes package keeps two package-level pieces of lifecycle state under
one mutex: the flag `isRoutineRunning` and the stop channel; a background
goroutine consumes the subscription while the flag is up.  Go zero-value
initialisation makes the flag start out false and no goroutine exists until
a start request launches one.  Every handler holds the mutex for its whole
body, so each handler runs atomically with respect to the others and is
modelled as a state transformer.

  func stopRoutine() {
      if isRoutineRunning { close(stopChannel); isRoutineRunning = false }
  }

`ResetGraphHandler` and `LoadLocalSnapshot` call `stopRoutine()` first and
only then `memgraph.DropDatabase`, aborting on the first failed step;
`GetStatusHandler` returns `isRoutineRunning`. -/

/-- The lifecycle state: the running flag, and whether a launched update
loop exists that has not been signalled to stop. -/
structure SyncState where
  running : Bool
  loopActive : Bool
deriving DecidableEq, Repr

/-- Go zero-value initialisation of the routes package state
(`var isRoutineRunning bool`): flag down, no loop launched. -/
def initialSyncState : SyncState := { running := false, loopActive := false }

/-- `GetStatusHandler`: reports `isRoutineRunning`. -/
def getStatusHandler (s : SyncState) : Bool := s.running

/-- Steps a reset / snapshot-load handler performs after stopping, in
order; `stopSignal` is the close of the stop channel. -/
inductive CtrlAction where
  | stopSignal
  | dropDatabase
  | pullGraph
  | writeGraph
  | setupAfterImport
  | writeSnapshot
deriving DecidableEq, Repr

/-- Success/failure outcomes of the fallible steps of one control request. -/
structure StepOutcomes where
  dropOk : Bool
  pullOk : Bool
  writeOk : Bool
  setupOk : Bool
  snapshotOk : Bool
deriving DecidableEq, Repr

/-- `stopRoutine`: force Running to Stopped, a no-op when already Stopped;
returns the close-of-stop-channel action when it fired. -/
def stopRoutine (s : SyncState) : SyncState × List CtrlAction :=
  if s.running then ({ running := false, loopActive := false }, [CtrlAction.stopSignal])
  else (s, [])

/-- Result of one reset / snapshot-load request: final state, the trace of
actions each paired with the lifecycle state in effect when it was issued,
and whether the handler ran to completion (HTTP 200). -/
structure HandlerResult where
  state : SyncState
  trace : List (SyncState × CtrlAction)
  completed : Bool
deriving DecidableEq, Repr

/-- `ResetGraphHandler` (LND-configured flag from `requireLND`): stop the
routine, drop the database, pull the graph, write it, run post-import
setup; abort with an error response on the first failing step. -/
def resetGraphHandler (lndConfigured : Bool) (ok : StepOutcomes) (s : SyncState) :
    HandlerResult :=
  if ¬ lndConfigured then ⟨s, [], false⟩
  else
    let stopped := stopRoutine s
    let s1 := stopped.1
    let stopTrace := stopped.2.map (fun a => (s, a))
    if ¬ ok.dropOk then ⟨s1, stopTrace ++ [(s1, CtrlAction.dropDatabase)], false⟩
    else if ¬ ok.pullOk then
      ⟨s1, stopTrace ++ [(s1, CtrlAction.dropDatabase), (s1, CtrlAction.pullGraph)], false⟩
    else if ¬ ok.writeOk then
      ⟨s1, stopTrace ++ [(s1, CtrlAction.dropDatabase), (s1, CtrlAction.pullGraph),
        (s1, CtrlAction.writeGraph)], false⟩
    else if ¬ ok.setupOk then
      ⟨s1, stopTrace ++ [(s1, CtrlAction.dropDatabase), (s1, CtrlAction.pullGraph),
        (s1, CtrlAction.writeGraph), (s1, CtrlAction.setupAfterImport)], false⟩
    else
      ⟨s1, stopTrace ++ [(s1, CtrlAction.dropDatabase), (s1, CtrlAction.pullGraph),
        (s1, CtrlAction.writeGraph), (s1, CtrlAction.setupAfterImport)], true⟩

/-- `LoadLocalSnapshot`: stop the routine, drop the database, load the
snapshot file, run post-import setup; abort on the first failing step. -/
def loadLocalSnapshot (ok : StepOutcomes) (s : SyncState) : HandlerResult :=
  let stopped := stopRoutine s
  let s1 := stopped.1
  let stopTrace := stopped.2.map (fun a => (s, a))
  if ¬ ok.dropOk then ⟨s1, stopTrace ++ [(s1, CtrlAction.dropDatabase)], false⟩
  else if ¬ ok.snapshotOk then
    ⟨s1, stopTrace ++ [(s1, CtrlAction.dropDatabase), (s1, CtrlAction.writeSnapshot)], false⟩
  else if ¬ ok.setupOk then
    ⟨s1, stopTrace ++ [(s1, CtrlAction.dropDatabase), (s1, CtrlAction.writeSnapshot),
      (s1, CtrlAction.setupAfterImport)], false⟩
  else
    ⟨s1, stopTrace ++ [(s1, CtrlAction.dropDatabase), (s1, CtrlAction.writeSnapshot),
      (s1, CtrlAction.setupAfterImport)], true⟩

theorem stopRoutine_not_running (s : SyncState) :
    (stopRoutine s).1.running = false := by
  by_cases h : s.running <;> simp [stopRoutine, h]

theorem stopRoutine_noop (s : SyncState) (h : s.running = false) :
    stopRoutine s = (s, []) := by
  simp [stopRoutine, h]

theorem resetGraphHandler_cases (lnd : Bool) (ok : StepOutcomes) (s : SyncState) :
    (resetGraphHandler lnd ok s = ⟨s, [], false⟩)
    ∨ ∃ (tail : List CtrlAction) (b : Bool),
        resetGraphHandler lnd ok s
          = ⟨(stopRoutine s).1,
             (stopRoutine s).2.map (fun a => (s, a))
               ++ tail.map (fun a => ((stopRoutine s).1, a)), b⟩ := by
  by_cases hl : lnd
  · right
    by_cases h1 : ok.dropOk
    · by_cases h2 : ok.pullOk
      · by_cases h3 : ok.writeOk
        · by_cases h4 : ok.setupOk
          · exact ⟨[CtrlAction.dropDatabase, CtrlAction.pullGraph,
              CtrlAction.writeGraph, CtrlAction.setupAfterImport], true,
              by simp [resetGraphHandler, hl, h1, h2, h3, h4]⟩
          · exact ⟨[CtrlAction.dropDatabase, CtrlAction.pullGraph,
              CtrlAction.writeGraph, CtrlAction.setupAfterImport], false,
              by simp [resetGraphHandler, hl, h1, h2, h3, h4]⟩
        · exact ⟨[CtrlAction.dropDatabase, CtrlAction.pullGraph,
            CtrlAction.writeGraph], false,
            by simp [resetGraphHandler, hl, h1, h2, h3]⟩
      · exact ⟨[CtrlAction.dropDatabase, CtrlAction.pullGraph], false,
          by simp [resetGraphHandler, hl, h1, h2]⟩
    · exact ⟨[CtrlAction.dropDatabase], false,
        by simp [resetGraphHandler, hl, h1]⟩
  · left
    simp [resetGraphHandler, hl]

theorem loadLocalSnapshot_cases (ok : StepOutcomes) (s : SyncState) :
    ∃ (tail : List CtrlAction) (b : Bool),
      loadLocalSnapshot ok s
        = ⟨(stopRoutine s).1,
           (stopRoutine s).2.map (fun a => (s, a))
             ++ tail.map (fun a => ((stopRoutine s).1, a)), b⟩ := by
  by_cases h1 : ok.dropOk
  · by_cases h2 : ok.snapshotOk
    · by_cases h3 : ok.setupOk
      · exact ⟨[CtrlAction.dropDatabase, CtrlAction.writeSnapshot,
          CtrlAction.setupAfterImport], true,
          by simp [loadLocalSnapshot, h1, h2, h3]⟩
      · exact ⟨[CtrlAction.dropDatabase, CtrlAction.writeSnapshot,
          CtrlAction.setupAfterImport], false,
          by simp [loadLocalSnapshot, h1, h2, h3]⟩
    · exact ⟨[CtrlAction.dropDatabase, CtrlAction.writeSnapshot], false,
        by simp [loadLocalSnapshot, h1, h2]⟩
  · exact ⟨[CtrlAction.dropDatabase], false,
      by simp [loadLocalSnapshot, h1]⟩

/-- C1: reset and load-snapshot both force Running to Stopped first (a
no-op when already Stopped) and only then issue the database drop — every
drop in their traces is issued in a state whose running flag is down — and
after a completed reset or load the status query reports Stopped. -/
theorem reset_and_load_stop_before_drop (lnd : Bool) (ok : StepOutcomes)
    (s : SyncState) :
    (s.running = false → stopRoutine s = (s, []))
    ∧ (∀ p ∈ (resetGraphHandler lnd ok s).trace,
        p.2 = CtrlAction.dropDatabase → p.1.running = false)
    ∧ ((resetGraphHandler lnd ok s).completed = true →
        getStatusHandler (resetGraphHandler lnd ok s).state = false)
    ∧ (∀ p ∈ (loadLocalSnapshot ok s).trace,
        p.2 = CtrlAction.dropDatabase → p.1.running = false)
    ∧ ((loadLocalSnapshot ok s).completed = true →
        getStatusHandler (loadLocalSnapshot ok s).state = false) := by
  have hs1 : (stopRoutine s).1.running = false := stopRoutine_not_running s
  have hstop : ∀ p ∈ (stopRoutine s).2.map (fun a => (s, a)),
      p.2 = CtrlAction.dropDatabase → p.1.running = false := by
    intro p hp hd
    by_cases hr : s.running
    · simp only [stopRoutine, hr, if_true, List.map_cons, List.map_nil,
        List.mem_singleton] at hp
      rw [hp] at hd
      cases hd
    · simp [stopRoutine, hr] at hp
  have htail : ∀ (tail : List CtrlAction),
      ∀ p ∈ tail.map (fun a => ((stopRoutine s).1, a)), p.1.running = false := by
    intro tail p hp
    obtain ⟨a, _, rfl⟩ := List.mem_map.1 hp
    exact hs1
  refine ⟨stopRoutine_noop s, ?_, ?_, ?_, ?_⟩
  · rcases resetGraphHandler_cases lnd ok s with heq | ⟨tail, b, heq⟩
    · rw [heq]
      intro p hp
      cases hp
    · rw [heq]
      intro p hp hd
      rcases List.mem_append.1 hp with h | h
      · exact hstop p h hd
      · exact htail tail p h
  · rcases resetGraphHandler_cases lnd ok s with heq | ⟨tail, b, heq⟩
    · rw [heq]
      intro hc
      cases hc
    · rw [heq]
      intro _
      exact hs1
  · obtain ⟨tail, b, heq⟩ := loadLocalSnapshot_cases ok s
    rw [heq]
    intro p hp hd
    rcases List.mem_append.1 hp with h | h
    · exact hstop p h hd
    · exact htail tail p h
  · obtain ⟨tail, b, heq⟩ := loadLocalSnapshot_cases ok s
    rw [heq]
    intro _
    exact hs1

/-- All-success step outcomes for the witness. -/
def allStepsOk : StepOutcomes := ⟨true, true, true, true, true⟩

theorem reset_and_load_stop_before_drop_witness :
    getStatusHandler (resetGraphHandler true allStepsOk ⟨true, true⟩).state = false
    ∧ getStatusHandler (loadLocalSnapshot allStepsOk ⟨true, true⟩).state = false := by
  have h := reset_and_load_stop_before_drop true allStepsOk ⟨true, true⟩
  exact ⟨h.2.2.1 (by decide), h.2.2.2.2 (by decide)⟩

/-- `ToggleUpdatesHandler`: under the lock, refuse when LND is not
configured; otherwise start a fresh loop when stopped, or stop the running
one.  The returned flag is the `isRoutineRunning` value in the JSON
response (none models the 400 refusal). -/
def toggleUpdatesHandler (lndConfigured : Bool) (s : SyncState) :
    SyncState × Option Bool :=
  if ¬ lndConfigured then (s, none)
  else if ¬ s.running then ({ running := true, loopActive := true }, some true)
  else ((stopRoutine s).1, some false)

/-- `subscribeToGraphUpdates`: establish the subscription; on failure log,
revert `isRoutineRunning` to false under the lock and return (the goroutine
exits, the process keeps serving).  On success consume messages, applying
`ProcessUpdates` to each, until the stop channel fires.  Result: the state
when the goroutine exits its startup phase, and the store writes it issued. -/
def subscribeToGraphUpdates (subscribeOk : Bool) (msgs : List GraphTopologyUpdate)
    (s : SyncState) : SyncState × List MGQuery :=
  if ¬ subscribeOk then ({ running := false, loopActive := false }, [])
  else (s, (msgs.map processUpdates).flatten)

/-- C8: when establishing the upstream subscription fails at loop start,
the loop reverts the lifecycle state to Stopped, issues no store writes,
and the process keeps running so a later start request succeeds: the status
query reports Stopped and a subsequent toggle starts the loop again. -/
theorem subscribe_failure_reverts_to_stopped (msgs : List GraphTopologyUpdate)
    (s : SyncState) :
    (subscribeToGraphUpdates false msgs s).1.running = false
    ∧ (subscribeToGraphUpdates false msgs s).1.loopActive = false
    ∧ getStatusHandler (subscribeToGraphUpdates false msgs s).1 = false
    ∧ (subscribeToGraphUpdates false msgs s).2 = []
    ∧ (toggleUpdatesHandler true (subscribeToGraphUpdates false msgs s).1).2 = some true
    ∧ (toggleUpdatesHandler true (subscribeToGraphUpdates false msgs s).1).1.running = true := by
  refine ⟨rfl, rfl, rfl, rfl, ?_, ?_⟩ <;>
    simp [subscribeToGraphUpdates, toggleUpdatesHandler, getStatusHandler]

/-- C9: at process startup, before any control operation, the lifecycle
state is Stopped — the running flag reads false, no update loop exists, and
the status query reports false. -/
theorem initial_state_is_stopped :
    initialSyncState.running = false
    ∧ initialSyncState.loopActive = false
    ∧ getStatusHandler initialSyncState = false :=
  ⟨rfl, rfl, rfl⟩

/-! ## Batch writer control flow (claim C5)

The bulk writers partition records into batches of 100:

  for i := 0; i < len(nodes); i += batchSize {
      end := i + batchSize
      if end > len(nodes) { end = len(nodes) }
      batch := nodes[i:end]
      ...
      _, err := session.Run(query, params)
      ...
  }

The repository contains two revisions of this loop body: an earlier one
that logs the error and continues (`log.Printf(...)`, no control flow) and
the current one that returns the error (`return fmt.Errorf(...)`), which
abandons the remaining batches.  Both are modelled below, along with the
per-record loop of `writeSnapshotNodesToMemgraph` and the per-event loops
of `ProcessUpdates`, which log and continue in every revision.  The models
record which batch (or record) indices get attempted, given an oracle
saying which attempts fail. -/

/-- Batch partition of the Go index loop (fuel-driven; `chunks 100 l` is
the batch list for batch size 100). -/
def chunksAux {α : Type} (size : Nat) : Nat → List α → List (List α)
  | 0, _ => []
  | _, [] => []
  | fuel + 1, l => l.take size :: chunksAux size fuel (l.drop size)

/-- The batches the Go loop slices out of the record list. -/
def chunks {α : Type} (size : Nat) (l : List α) : List (List α) :=
  chunksAux size l.length l

/-- Current-revision batch loop: attempt batches in order, return on the
first failure (`return fmt.Errorf(...)`); yields attempted batch indices
and whether all succeeded. -/
def attemptBatchesAbort {α : Type} (failsAt : Nat → Bool) :
    List (List α) → Nat → List Nat × Bool
  | [], _ => ([], true)
  | _ :: bs, i =>
    if failsAt i then ([i], false)
    else
      let rest := attemptBatchesAbort failsAt bs (i + 1)
      (i :: rest.1, rest.2)

/-- Earlier-revision batch loop: a failed batch is only logged
(`log.Printf(...)`), so every batch is attempted regardless of failures. -/
def attemptBatchesLogging {α : Type} (failsAt : Nat → Bool) :
    List (List α) → Nat → List Nat
  | [], _ => []
  | _ :: bs, i => i :: attemptBatchesLogging failsAt bs (i + 1)

/-- Per-record / per-event loop (`writeSnapshotNodesToMemgraph`,
`ProcessUpdates`): a failed write is only logged, so every item is
attempted regardless of failures. -/
def attemptAllLogging {α : Type} (failsAt : Nat → Bool) :
    List α → Nat → List (Nat × α)
  | [], _ => []
  | q :: qs, i => (i, q) :: attemptAllLogging failsAt qs (i + 1)

theorem attemptAllLogging_eq {α : Type} (failsAt : Nat → Bool) (qs : List α) :
    ∀ i, (attemptAllLogging failsAt qs i).map Prod.snd = qs := by
  induction qs with
  | nil => intro i; rfl
  | cons q qs ih =>
    intro i
    simp [attemptAllLogging, ih (i + 1)]

theorem attemptBatchesLogging_eq {α : Type} (failsAt : Nat → Bool)
    (bs : List (List α)) :
    ∀ i, attemptBatchesLogging failsAt bs i = List.range' i bs.length := by
  induction bs with
  | nil => intro i; rfl
  | cons b bs ih =>
    intro i
    simp [attemptBatchesLogging, List.range'_succ, ih (i + 1)]

theorem attemptBatchesAbort_mem {α : Type} (failsAt : Nat → Bool)
    (bs : List (List α)) :
    ∀ i j, j ∈ (attemptBatchesAbort failsAt bs i).1 ↔
      (i ≤ j ∧ j < i + bs.length
        ∧ ∀ k, i ≤ k → k < j → failsAt k = false) := by
  induction bs with
  | nil =>
    intro i j
    simp only [attemptBatchesAbort, List.not_mem_nil, List.length_nil, false_iff]
    intro ⟨h1, h2, _⟩
    omega
  | cons b bs ih =>
    intro i j
    by_cases hf : failsAt i
    · simp only [attemptBatchesAbort, hf, if_true, List.mem_singleton, List.length_cons]
      constructor
      · intro he
        subst he
        exact ⟨Nat.le_refl _, by omega, fun k h1 h2 => absurd h1 (by omega)⟩
      · intro ⟨h1, h2, h3⟩
        by_contra hne
        have hij : i < j := by omega
        have := h3 i (Nat.le_refl _) hij
        rw [hf] at this
        cases this
    · simp only [attemptBatchesAbort, hf, Bool.false_eq_true, if_false,
        List.mem_cons, List.length_cons]
      rw [ih (i + 1) j]
      constructor
      · intro h
        rcases h with he | ⟨h1, h2, h3⟩
        · subst he
          exact ⟨Nat.le_refl _, by omega, fun k hk1 hk2 => absurd hk1 (by omega)⟩
        · refine ⟨by omega, by omega, fun k hk1 hk2 => ?_⟩
          by_cases hki : k = i
          · subst hki
            simpa using hf
          · exact h3 k (by omega) hk2
      · intro ⟨h1, h2, h3⟩
        by_cases he : j = i
        · exact Or.inl he
        · exact Or.inr ⟨by omega, by omega, fun k hk1 hk2 => h3 k (by omega) hk2⟩

/-- Example node record for exercising the batch loops. -/
def exLiveNode : LiveNode := { pubKey := "pk", nodeAlias := "al", addresses := [] }

/-- 150 records: two batches of size 100 and 50 at batch size 100. -/
def exRows : List LiveNode := List.replicate 150 exLiveNode

set_option maxRecDepth 4096

/-- C5 counterexample: with 150 records (two batches) and the first batch
failing, the current-revision bulk writer attempts only batch 0 — batch 1
is never attempted, contradicting the claim that failure of batch k still
attempts batches k+1..n. -/
theorem batch_failure_stops_later_batches_counterexample :
    (chunks 100 exRows).length = 2
    ∧ (attemptBatchesAbort (fun i => decide (i = 0)) (chunks 100 exRows) 0).1 = [0]
    ∧ 1 ∉ (attemptBatchesAbort (fun i => decide (i = 0)) (chunks 100 exRows) 0).1 := by
  refine ⟨rfl, rfl, ?_⟩
  decide

/-- C5 amended: per-event and per-record writes are attempted for every
item regardless of failures (`ProcessUpdates` loops and the snapshot
per-record loop log and continue), and the earlier revision of the batched
bulk writer attempts every batch; but the current revision of the batched
bulk writer attempts exactly the batches up to and including the first
failing one — a batch failure prevents the remaining batches. -/
theorem per_event_continues_bulk_batch_aborts :
    (∀ (failsAt : Nat → Bool) (qs : List MGQuery) (i : Nat),
      (attemptAllLogging failsAt qs i).map Prod.snd = qs)
    ∧ (∀ (failsAt : Nat → Bool) (ns : List SnapNodeJson) (i : Nat),
      (attemptAllLogging failsAt ns i).map Prod.snd = ns)
    ∧ (∀ (α : Type) (failsAt : Nat → Bool) (bs : List (List α)) (i : Nat),
      attemptBatchesLogging failsAt bs i = List.range' i bs.length)
    ∧ (∀ (α : Type) (failsAt : Nat → Bool) (bs : List (List α)) (i j : Nat),
      j ∈ (attemptBatchesAbort failsAt bs i).1 ↔
        (i ≤ j ∧ j < i + bs.length
          ∧ ∀ k, i ≤ k → k < j → failsAt k = false)) :=
  ⟨fun failsAt qs i => attemptAllLogging_eq failsAt qs i,
   fun failsAt ns i => attemptAllLogging_eq failsAt ns i,
   fun _ failsAt bs i => attemptBatchesLogging_eq failsAt bs i,
   fun _ failsAt bs i j => attemptBatchesAbort_mem failsAt bs i j⟩

theorem per_event_continues_bulk_batch_aborts_witness :
    (attemptAllLogging (fun i => decide (i = 0)) [MGQuery.deleteEdgeQ "1"] 0).map Prod.snd
      = [MGQuery.deleteEdgeQ "1"]
    ∧ 1 ∈ (attemptBatchesAbort (fun _ => false) (chunks 100 exRows) 0).1 := by
  refine ⟨per_event_continues_bulk_batch_aborts.1 _ _ 0, ?_⟩
  refine (per_event_continues_bulk_batch_aborts.2.2.2 LiveNode _ (chunks 100 exRows) 0 1).2
    ⟨by omega, ?_, fun k _ _ => rfl⟩
  show 1 < 0 + (chunks 100 exRows).length
  decide
